import Mathlib

/-!
Verification of the heuristic extraction engine of StatCastle (src/analyze.py).

The Python helpers are embedded shallowly: strings are Lean `String`s handled
as `List Char`, Python floats carrying exact decimal data are modelled as `ℚ`,
`np.nan` / missing values as `Option ℚ`, and the two row extractors are
modelled in `Except String` so that any array indexing, `max` on an empty
list, or division that Python would let raise an uncaught exception appears
as an explicit `.error`; operations the Python code wraps in `try/except`
are modelled by their handled semantics instead.
-/

set_option maxRecDepth 100000

namespace StatCastle

/-! ### Character classes (ASCII, as used by the regexes in analyze.py) -/

def isWsC (c : Char) : Bool :=
  c == ' ' || c == '\t' || c == '\n' || c == '\r' || c == '\x0b' || c == '\x0c'

def isDigitC (c : Char) : Bool := 48 ≤ c.toNat && c.toNat ≤ 57

def isUpperC (c : Char) : Bool := 65 ≤ c.toNat && c.toNat ≤ 90

def isLowerC (c : Char) : Bool := 97 ≤ c.toNat && c.toNat ≤ 122

def isAlphaC (c : Char) : Bool := isUpperC c || isLowerC c

def isAlnumC (c : Char) : Bool := isAlphaC c || isDigitC c

/-- Word characters for the regex class backslash-w and for word boundaries. -/
def isWordC (c : Char) : Bool := isAlnumC c || c == '_'

/-- Characters in the class [a-z0-9] used by `canonical_name`. -/
def isLowAl (c : Char) : Bool := isLowerC c || isDigitC c

/-- The substitution of `canonical_name`: keep [a-z0-9], map the rest to a
space (runs collapse to one space afterwards). -/
def toSpC (c : Char) : Char := if isLowAl c then c else ' ' 

def asciiLower (c : Char) : Char :=
  if isUpperC c then Char.ofNat (c.toNat + 32) else c

def asciiUpper (c : Char) : Char :=
  if isLowerC c then Char.ofNat (c.toNat - 32) else c

/-! ### Python string primitives -/

/-- Leading-whitespace strip on a character list. -/
def dropWs (l : List Char) : List Char := l.dropWhile (fun c => isWsC c)

/-- Trailing-whitespace strip on a character list. -/
def stripR : List Char → List Char
  | [] => []
  | a :: x =>
    match stripR x with
    | [] => if isWsC a then [] else [a]
    | y => a :: y

/-- Python `str.strip()`. -/
def stripL (l : List Char) : List Char := stripR (dropWs l)

/-- Collapse adjacent duplicate spaces (used after mapping whitespace or
separator runs to single spaces, emulating `re.sub(pattern, " ", s)`). -/
def collapseRuns : List Char → List Char
  | [] => []
  | [c] => [c]
  | a :: b :: rest =>
    if a == ' ' && b == ' ' then collapseRuns (b :: rest)
    else a :: collapseRuns (b :: rest)

/-- `norm(s)`: strip, then replace each whitespace run by a single space. -/
def normL (l : List Char) : List Char :=
  collapseRuns ((stripL l).map (fun c => if isWsC c then ' ' else c))

def norm (s : String) : String := ⟨normL s.data⟩

/-- `lower(s) = norm(s).lower()`. -/
def lowerStr (s : String) : String := ⟨(normL s.data).map asciiLower⟩

/-- Plain Python `str.lower()` (no normalisation), as in `name.lower()`. -/
def pyLowerRaw (s : String) : String := ⟨s.data.map asciiLower⟩

def pyStrip (s : String) : String := ⟨stripL s.data⟩

/-- Python `str.title()`: a letter is upper-cased iff the previous character
is not a letter; other characters pass through. -/
def titleAux : Bool → List Char → List Char
  | _, [] => []
  | prevAlpha, c :: cs =>
    (if isAlphaC c then (if prevAlpha then asciiLower c else asciiUpper c) else c)
      :: titleAux (isAlphaC c) cs

/-- `title_clean(s) = norm(s).replace("*","").strip().title()`. -/
def title_clean (s : String) : String :=
  ⟨titleAux false (stripL ((normL s.data).filter (fun c => !(c == '*'))))⟩

/-- The lower-cased characters of `lower(s)`, the input to the key substitution
in `canonical_name`. -/
def lowerChars (s : String) : List Char := (normL s.data).map asciiLower

/-- `canonical_name(s) = re.sub(r"[^a-z0-9]+", " ", lower(s)).strip()`. -/
def canonical_name (s : String) : String :=
  ⟨stripL (collapseRuns ((lowerChars s).map toSpC))⟩

/-- Python `str.split()` (split on whitespace runs, dropping empty parts);
generalised to an arbitrary separator predicate. -/
def wordsBy (p : Char → Bool) : List Char → List (List Char)
  | [] => []
  | c :: cs =>
    if p c then wordsBy p cs
    else (c :: cs.takeWhile (fun x => !p x)) :: wordsBy p (cs.dropWhile (fun x => !p x))
termination_by l => l.length
decreasing_by
  · simp only [List.length_cons]; omega
  · simp only [List.length_cons]
    exact Nat.lt_succ_of_le (List.dropWhile_sublist _).length_le

def pySplit (s : String) : List String := (wordsBy isWsC s.data).map (fun l => (⟨l⟩ : String))

/-- Python substring test `needle in hay`. -/
def isSubstr (needle hay : List Char) : Bool :=
  (List.range (hay.length + 1)).any (fun i => needle.isPrefixOf (hay.drop i))

def pyContains (needle hay : String) : Bool := isSubstr needle.data hay.data

/-- `" ".join(cells)`. -/
def joinCells (cells : List String) : String := String.intercalate " " cells

def digitsToNat (l : List Char) : Nat := l.foldl (fun n c => 10 * n + (c.toNat - 48)) 0

/-! ### Numeric token parsing -/

/-- `is_numish(x)`: full match of the regex digits, optionally dot digits. -/
def is_numish (x : String) : Bool :=
  let l := x.data
  let d1 := l.takeWhile isDigitC
  let r := l.drop d1.length
  !d1.isEmpty &&
    (r.isEmpty || (r.headI == '.' && !(r.drop 1).isEmpty && (r.drop 1).all isDigitC))

/-- Exact rational value of a token matching `is_numish` (what Python's
`float()` computes on it, with the decimal data kept exact). -/
def floatOfNumish (x : String) : ℚ :=
  let l := x.data
  let d1 := l.takeWhile isDigitC
  let r := l.drop d1.length
  let fp := (r.drop 1).takeWhile isDigitC
  (digitsToNat d1 : ℚ) + (digitsToNat fp : ℚ) / ((10 : ℚ) ^ fp.length)

/-- Python `float(x)` on a general string: optional sign, decimal digits with
optional fraction, optional exponent, surrounded by whitespace. Returns `none`
where `float` raises `ValueError` (and for the non-finite spellings, which the
callers' range checks discard anyway). -/
def pyFloat? (s : String) : Option ℚ :=
  let l := stripL s.data
  let (sgn, l1) : ℚ × List Char :=
    match l with
    | '+' :: r => (1, r)
    | '-' :: r => (-1, r)
    | r => (1, r)
  let ip := l1.takeWhile isDigitC
  let l2 := l1.drop ip.length
  let (fp, l3) : List Char × List Char :=
    match l2 with
    | '.' :: r => (r.takeWhile isDigitC, r.drop (r.takeWhile isDigitC).length)
    | r => ([], r)
  if ip.isEmpty && fp.isEmpty then none
  else
    let mant : ℚ := sgn * ((digitsToNat ip : ℚ) + (digitsToNat fp : ℚ) / ((10 : ℚ) ^ fp.length))
    match l3 with
    | [] => some mant
    | e :: r =>
      if e == 'e' || e == 'E' then
        let (esgn, r1) : Bool × List Char :=
          match r with
          | '+' :: rr => (false, rr)
          | '-' :: rr => (true, rr)
          | rr => (false, rr)
        if !r1.isEmpty && r1.all isDigitC then
          some (if esgn then mant / ((10 : ℚ) ^ digitsToNat r1) else mant * ((10 : ℚ) ^ digitsToNat r1))
        else none
      else none

/-- Python `int(x)` on a string: optional surrounding whitespace, optional
sign, decimal digits. `none` where `int` raises. -/
def pyInt? (s : String) : Option Int :=
  let l := stripL s.data
  let (neg, l1) : Bool × List Char :=
    match l with
    | '+' :: r => (false, r)
    | '-' :: r => (true, r)
    | r => (false, r)
  if !l1.isEmpty && l1.all isDigitC then
    some (if neg then -(digitsToNat l1 : Int) else (digitsToNat l1 : Int))
  else none

/-! ### The dismissal-keyword search (regex DISMISS_ANY) -/

/-- Does one of the DISMISS_ANY alternatives match at the head of the
(lower-cased) suffix `t`? -/
def dismissAltAt (t : List Char) : Bool :=
  ("not out".data.isPrefixOf t) ||
  ("c&b".data.isPrefixOf t) ||
  -- c with a word boundary after, or c followed by whitespace
  (match t with
   | 'c' :: rest => rest.isEmpty || !isWordC rest.headI || isWsC rest.headI
   | _ => false) ||
  (match t with
   | 'b' :: rest => rest.isEmpty || !isWordC rest.headI || isWsC rest.headI
   | _ => false) ||
  ("lbw".data.isPrefixOf t) ||
  -- st with a word boundary after, or st followed by whitespace
  ("st".data.isPrefixOf t &&
    (let rest := t.drop 2
     rest.isEmpty || !isWordC rest.headI || isWsC rest.headI)) ||
  ("run out".data.isPrefixOf t) ||
  ("retired hurt".data.isPrefixOf t) ||
  ("retired".data.isPrefixOf t)

/-- Word boundary before position `i` of `cs` (every DISMISS_ANY alternative
starts with a word character, so this is the regex's leading boundary). -/
def boundaryBefore (cs : List Char) (i : Nat) : Bool :=
  i == 0 ||
    (match cs.get? (i - 1) with
     | some c => !isWordC c
     | none => true)

/-- `DISMISS_ANY.search(s)`: index of the first match, if any (the regex is
case-insensitive, hence the lower-cased copy). -/
def dismissFirst? (s : String) : Option Nat :=
  let cs := s.data
  let lcs := cs.map asciiLower
  (List.range (cs.length + 1)).find? (fun i =>
    boundaryBefore cs i && dismissAltAt (lcs.drop i))

def dismissFound (s : String) : Bool := (dismissFirst? s).isSome

/-! ### Section / noise row detection -/

/-- Word boundary after the range ending at index `j` of `cs`. -/
def boundaryAfter (cs : List Char) (j : Nat) : Bool :=
  match cs.get? j with
  | some c => !isWordC c
  | none => true

/-- Does `w` occur at position `i` of `cs` with word boundaries on both
sides (regex backslash-b w backslash-b)? -/
def substrBoundedAt (cs : List Char) (w : List Char) (i : Nat) : Bool :=
  boundaryBefore cs i && w.isPrefixOf (cs.drop i) && boundaryAfter cs (i + w.length)

def substrBounded (cs : List Char) (w : String) : Bool :=
  (List.range (cs.length + 1)).any (fun i => substrBoundedAt cs w.data i)

/-- `^w` followed by a word boundary. -/
def headBounded (cs : List Char) (w : String) : Bool :=
  w.data.isPrefixOf cs && boundaryAfter cs w.data.length

/-- `is_section_like(text)`: SECTION_PATTERNS searched over `lower(text)`
(which is whitespace-normalised, so the patterns' backslash-s-plus parts
reduce to single spaces). -/
def is_section_like (text : String) : Bool :=
  let t := lowerStr text
  let tc := t.data
  t == "bowling" || t == "batting" ||
  headBounded tc "extras" ||
  headBounded tc "total" ||
  headBounded tc "did not bat" ||
  substrBounded tc "innings" ||
  substrBounded tc "league" ||
  substrBounded tc "houston premier" || substrBounded tc "hpt20l" ||
  substrBounded tc "fall of wickets" ||
  substrBounded tc "partnership" ||
  t == "o" || t == "r" ||
  (tc.headI == '(' && tc.getLastD ' ' == ')' && 2 ≤ tc.length)

/-- `looks_name(s)`. -/
def looks_name (s : String) : Bool :=
  let s2 := pyStrip ⟨s.data.filter (fun c => !(c == '*'))⟩
  if s2.isEmpty then false
  else if is_section_like s2 then false
  else if s2.data.all (fun c =>
      isDigitC c || isWsC c || c == '.' || c == '-' || c == '(' || c == ')' || c == '/' || c == ':')
    then false
  else s2.data.any isAlphaC

/-! ### Dismissal decoding -/

/-- `simplify_how_out(h)`. -/
def simplify_how_out (h : String) : String :=
  let x := lowerStr h
  if "c".data.isPrefixOf x.data then "catch"
  else if "b".data.isPrefixOf x.data then "bowled"
  else if "not out".data.isPrefixOf x.data then "not out"
  else if pyContains "run out" x then "run out"
  else if pyContains "lbw" x then "lbw"
  else if "st".data.isPrefixOf x.data then "stumped"
  else pyStrip h

/-- `split_name_and_dismissal(text)`: split at the first dismissal keyword. -/
def split_name_and_dismissal (text : String) : String × String :=
  let s := norm text
  match dismissFirst? s with
  | some i => (title_clean ⟨s.data.take i⟩, simplify_how_out ⟨s.data.drop i⟩)
  | none => (title_clean s, simplify_how_out "")

/-! ### The runs(balls) patterns of parse_batting_row -/

/-- Match of the pattern digits, optional whitespace, an opening parenthesis
or a whitespace character, optional whitespace, digits, optional closing
parenthesis, at the head of `cs` (regex backtracking resolved: the second
digit group starts at the first non-whitespace position after the first). -/
def rbMatchAt (cs : List Char) : Option (Nat × Nat) :=
  let d1 := cs.takeWhile isDigitC
  if d1.isEmpty then none
  else
    let r1 := cs.drop d1.length
    let w := r1.takeWhile isWsC
    let r2 := r1.drop w.length
    if r2.headI == '(' && !r2.isEmpty then
      let r3 := (r2.drop 1).dropWhile isWsC
      let d2 := r3.takeWhile isDigitC
      if d2.isEmpty then none else some (digitsToNat d1, digitsToNat d2)
    else if !w.isEmpty then
      let d2 := r2.takeWhile isDigitC
      if d2.isEmpty then none else some (digitsToNat d1, digitsToNat d2)
    else none

/-- `re.search(r'(\d+)\s*[\(\s]\s*(\d+)\s*\)?', joined)`: leftmost match. -/
def rbSearch (s : String) : Option (ℚ × ℚ) :=
  let cs := s.data
  ((List.range (cs.length + 1)).findSome? (fun i => rbMatchAt (cs.drop i))).map
    (fun p => ((p.1 : ℚ), (p.2 : ℚ)))

/-- `re.fullmatch(r"(\d+)\s*\((\d+)\)", token)`. -/
def comboFull? (tok : String) : Option (ℚ × ℚ) :=
  let l := tok.data
  let d1 := l.takeWhile isDigitC
  if d1.isEmpty then none
  else
    let r1 := l.drop d1.length
    let r2 := r1.drop (r1.takeWhile isWsC).length
    match r2 with
    | '(' :: r3 =>
      let d2 := r3.takeWhile isDigitC
      if d2.isEmpty then none
      else match r3.drop d2.length with
        | [')'] => some ((digitsToNat d1 : ℚ), (digitsToNat d2 : ℚ))
        | _ => none
    | _ => none

/-- The ordered numeric tokens collected from the cells after the name. -/
def orderedNums (tail : List String) : List ℚ :=
  tail.foldl (fun acc cell =>
    let token := norm cell
    if token.isEmpty then acc
    else if is_numish token then acc ++ [floatOfNumish token]
    else match comboFull? token with
      | some p => acc ++ [p.1, p.2]
      | none => acc) []

/-! ### Patterns used by the opponent-from-tables loop (parse_match_result) -/

/-- `re.search(r"\d+\s*[,:]\s*\d+", s)`. -/
def scorePatternB (s : String) : Bool :=
  let cs := s.data
  (List.range cs.length).any (fun i =>
    let t := cs.drop i
    let d1 := t.takeWhile isDigitC
    !d1.isEmpty &&
      (let r := (t.drop d1.length).dropWhile isWsC
       match r with
       | c :: rest => (c == ',' || c == ':') && isDigitC ((rest.dropWhile isWsC).headI) && !(rest.dropWhile isWsC).isEmpty
       | [] => false))

/-- `re.search(r"\d{4}|\d{1,2}/\d{1,2}", s)`. -/
def dateLikeB (s : String) : Bool :=
  let cs := s.data
  let dAt := fun i => match cs.get? i with
    | some c => isDigitC c
    | none => false
  let slashAt := fun i => cs.get? i == some '/'
  (List.range cs.length).any (fun i =>
    (dAt i && dAt (i + 1) && dAt (i + 2) && dAt (i + 3)) ||
    (dAt i && dAt (i + 1) && slashAt (i + 2) && dAt (i + 3)) ||
    (dAt i && slashAt (i + 1) && dAt (i + 2)))

/-- The opponent-selection loop of `parse_match_result` (analyze.py lines
475-484): the first table-derived team whose key differs from the subject
team's and which passes the score/date/break/league filters. The Python
code iterates a `set` here; the list argument stands for one iteration
order of that set. -/
def opponent_from_tables (teams : List (String × String)) (team_key : String) : Option String :=
  (teams.find? (fun td =>
      !(td.2 == team_key) &&
      !scorePatternB td.1 &&
      !dateLikeB td.1 &&
      !pyContains "break" (lowerStr td.1) &&
      !pyContains "league" (lowerStr td.1))).map (fun td => td.1)

/-! ### Date parsing (DATE_PATTERNS and parse_date_safely) -/

def isLeapYear (y : Nat) : Bool := (y % 4 == 0 && y % 100 != 0) || y % 400 == 0

def daysInMonth (y m : Nat) : Nat :=
  if m == 2 then (if isLeapYear y then 29 else 28)
  else if m == 4 || m == 6 || m == 9 || m == 11 then 30
  else 31

/-- Validity of the `datetime(year, month, day)` construction. -/
def validDate (y m d : Nat) : Bool :=
  1 ≤ y && y ≤ 9999 && 1 ≤ m && m ≤ 12 && 1 ≤ d && d ≤ daysInMonth y m

/-- strptime directive %m: one or two digits, value 1..12. -/
def monthComp? (t : String) : Option Nat :=
  let l := t.data
  if !l.isEmpty && l.length ≤ 2 && l.all isDigitC && 1 ≤ digitsToNat l && digitsToNat l ≤ 12
  then some (digitsToNat l) else none

/-- strptime directive %d: one or two digits, value 1..31. -/
def dayComp? (t : String) : Option Nat :=
  let l := t.data
  if !l.isEmpty && l.length ≤ 2 && l.all isDigitC && 1 ≤ digitsToNat l && digitsToNat l ≤ 31
  then some (digitsToNat l) else none

/-- strptime directive %Y: exactly four digits. -/
def yearComp? (t : String) : Option Nat :=
  let l := t.data
  if l.length == 4 && l.all isDigitC then some (digitsToNat l) else none

def MONTH_ABBREVS : List String :=
  ["jan", "feb", "mar", "apr", "may", "jun", "jul", "aug", "sep", "oct", "nov", "dec"]

/-- strptime directive %b: abbreviated month name, case-insensitive. -/
def monthNameComp? (t : String) : Option Nat :=
  ((MONTH_ABBREVS.enum).find? (fun p => pyLowerRaw t == p.2)).map (fun p => p.1 + 1)

inductive DateFmt
  | mdYslash | mdYdash | bdY | dmYslash | dmYdash | dbY | Ymd
deriving DecidableEq

/-- The seven formats of DATE_PATTERNS, in order. -/
def DATE_PATTERNS : List DateFmt :=
  [.mdYslash, .mdYdash, .bdY, .dmYslash, .dmYdash, .dbY, .Ymd]

/-- `datetime.strptime(s, fmt)` for one of the DATE_PATTERNS formats,
returning (year, month, day); `none` where strptime raises. -/
def strptimeF (fmt : DateFmt) (s : String) : Option (Nat × Nat × Nat) :=
  let triple := fun (parts : List String)
      (f1 f2 : String → Option Nat) (asMD : Bool) =>
    match parts with
    | [a, b, c] =>
      match f1 a, f2 b, yearComp? c with
      | some x, some y, some yr =>
        let (m, d) := if asMD then (x, y) else (y, x)
        if validDate yr m d then some (yr, m, d) else none
      | _, _, _ => none
    | _ => none
  match fmt with
  | .mdYslash => triple (s.splitOn "/") monthComp? dayComp? true
  | .mdYdash => triple (s.splitOn "-") monthComp? dayComp? true
  | .bdY => triple ((wordsBy isWsC s.data).map (fun l => (⟨l⟩ : String))) monthNameComp? dayComp? true
  | .dmYslash => triple (s.splitOn "/") dayComp? monthComp? false
  | .dmYdash => triple (s.splitOn "-") dayComp? monthComp? false
  | .dbY => triple ((wordsBy isWsC s.data).map (fun l => (⟨l⟩ : String))) dayComp? monthNameComp? false
  | .Ymd =>
    match s.splitOn "-" with
    | [a, b, c] =>
      match yearComp? a, monthComp? b, dayComp? c with
      | some yr, some m, some d => if validDate yr m d then some (yr, m, d) else none
      | _, _, _ => none
    | _ => none

/-- The YYYY-DD-MM reinterpretation attempt of parse_date_safely (analyze.py
lines 184-208): runs only after a successful %Y-%m-%d strptime; a failing
`datetime` construction is swallowed by the inner except and keeps `dt`. -/
def applyYmdQuirk (t : String) (dt : Nat × Nat × Nat) : Nat × Nat × Nat :=
  match t.splitOn "-" with
  | [p0, p1, p2] =>
    match pyInt? p0, pyInt? p1, pyInt? p2 with
    | some year, some part1, some part2 =>
      if part1 > 12 || part2 > 12 then
        if 1 ≤ part2 && part2 ≤ 12 then
          if 0 ≤ year && 0 ≤ part1 && validDate year.toNat part2.toNat part1.toNat
          then (year.toNat, part2.toNat, part1.toNat) else dt
        else dt
      else dt
    | _, _, _ => dt
  | _ => dt

def pad2 (n : Nat) : String := if n < 10 then "0" ++ toString n else toString n

def pad4 (n : Nat) : String :=
  if n < 10 then "000" ++ toString n
  else if n < 100 then "00" ++ toString n
  else if n < 1000 then "0" ++ toString n
  else toString n

/-- `dt.strftime("%Y-%m-%d")`. -/
def fmtYmd (dt : Nat × Nat × Nat) : String :=
  pad4 dt.1 ++ "-" ++ pad2 dt.2.1 ++ "-" ++ pad2 dt.2.2

/-- `parse_date_safely(date_str)`. -/
def parse_date_safely (date_str : String) : Option String :=
  let t := pyStrip date_str
  DATE_PATTERNS.findSome? (fun fmt =>
    (strptimeF fmt t).map (fun dt =>
      fmtYmd (match fmt with
        | .Ymd => applyYmdQuirk t dt
        | _ => dt)))

/-! ### Plausibility bounds -/

/-- A present-or-absent value within bounds: `pd.isna(v) or lo <= v <= hi`. -/
def inRangeQ (lo hi : ℚ) : Option ℚ → Bool
  | none => true
  | some v => decide (lo ≤ v) && decide (v ≤ hi)

/-- A present-or-absent value bounded above: `pd.isna(v) or v <= hi`. -/
def atMostQ (hi : ℚ) : Option ℚ → Bool
  | none => true
  | some v => decide (v ≤ hi)

/-- `plausible_batting(runs, balls, sr, fours, sixes)`. -/
def plausible_batting (runs balls sr fours sixes : Option ℚ) : Bool :=
  inRangeQ 0 200 runs && inRangeQ 0 120 balls && inRangeQ 10 400 sr &&
  atMostQ 30 fours && atMostQ 20 sixes

/-- `plausible_bowling(o, m, dot, r, w, econ)`. -/
def plausible_bowling (o m dot r w econ : Option ℚ) : Bool :=
  inRangeQ 0 10 o && inRangeQ 0 5 m && inRangeQ 0 36 dot &&
  inRangeQ 0 120 r && inRangeQ 0 10 w && inRangeQ (1/2) 20 econ

def countSome (l : List (Option ℚ)) : Nat := (l.filter (fun o => o.isSome)).length

/-! ### Wides / no-balls extraction (_extract_extra) -/

/-- Pattern `\b SYM \s* (\d+)` at position `i` of the lower-cased text, where
`syms` are the symbol's alternatives in regex order. -/
def extraP1At (syms : List (List Char)) (lcs : List Char) (i : Nat) : Option Nat :=
  if !boundaryBefore lcs i then none
  else syms.findSome? (fun w =>
    if w.isPrefixOf (lcs.drop i) then
      let r := (lcs.drop (i + w.length)).dropWhile isWsC
      let ds := r.takeWhile isDigitC
      if ds.isEmpty then none else some (digitsToNat ds)
    else none)

/-- Pattern `(\d+) \s* SYM` at position `i` of the lower-cased text. -/
def extraP2At (syms : List (List Char)) (lcs : List Char) (i : Nat) : Option Nat :=
  let t := lcs.drop i
  let ds := t.takeWhile isDigitC
  if ds.isEmpty then none
  else
    let r := (t.drop ds.length).dropWhile isWsC
    if syms.any (fun w => w.isPrefixOf r) then some (digitsToNat ds) else none

/-- `_extract_extra(text, symbol)`: first pattern wins, then the second,
else 0; 0 for empty text. -/
def extract_extra (syms : List (List Char)) (text : String) : Nat :=
  if text.isEmpty then 0
  else
    let lcs := text.data.map asciiLower
    match (List.range (lcs.length + 1)).findSome? (fun i => extraP1At syms lcs i) with
    | some v => v
    | none =>
      match (List.range (lcs.length + 1)).findSome? (fun i => extraP2At syms lcs i) with
      | some v => v
      | none => 0

/-- The alternatives of the symbol `(?:wd|w)`. -/
def wdSyms : List (List Char) := ["wd".data, "w".data]

/-- The alternatives of the symbol `nb`. -/
def nbSyms : List (List Char) := ["nb".data]

/-! ### The bowling row extractor -/

structure BowlingRec where
  bowler : String
  o : Option ℚ
  m : Option ℚ
  dot : Option ℚ
  r : Option ℚ
  w : Option ℚ
  econ : Option ℚ
  wd : ℚ
  nb : ℚ
  match_id : String
  score : Nat
deriving DecidableEq

/-- The six (overs, maidens, dots, runs, wickets, econ) slots. -/
structure BowlSlots where
  o : Option ℚ
  m : Option ℚ
  dot : Option ℚ
  r : Option ℚ
  w : Option ℚ
  econ : Option ℚ
deriving DecidableEq

/-- The slot assignment of parse_bowling_row up to and including the
shift-left fix (analyze.py lines 912-922), before the econ fallback: the
first six numeric tokens of the tail, padded with absent values, then the
shift when overs is absent but maidens, dots, runs and wickets are present. -/
def bowling_slots_preEcon (tail : List String) : BowlSlots :=
  let nums := tail.filter (fun x => is_numish x)
  let vals := (nums.take 6).map floatOfNumish
  let o := vals.get? 0
  let m := vals.get? 1
  let dotv := vals.get? 2
  let r := vals.get? 3
  let w := vals.get? 4
  let econ := vals.get? 5
  if o.isNone && m.isSome && dotv.isSome && r.isSome && w.isSome then
    ⟨m, dotv, r, w, econ, vals.get? 5⟩
  else ⟨o, m, dotv, r, w, econ⟩

/-- `parse_bowling_row(cells, match_id)` (analyze.py lines 890-968). -/
def parse_bowling_row (cells : List String) (match_id : String) :
    Except String (Option BowlingRec) :=
  let joined_all := joinCells cells
  if dismissFound joined_all then .ok none
  else match (cells.enum).find? (fun p => looks_name p.2) with
  | none => .ok none
  | some (name_idx, name_cell) =>
    let name := title_clean name_cell
    let tail := cells.drop (name_idx + 1)
    if tail.isEmpty then .ok none
    else
      let nums := tail.filter (fun x => is_numish x)
      if 5 * nums.length < 4 * (max 1 tail.length) then .ok none
      else if nums.length < 4 then .ok none
      else
        let s := bowling_slots_preEcon tail
        let econ :=
          if (match s.econ with | none => true | some e => decide (e < 1/2))
              && decide (6 ≤ nums.length) then
            match nums.get? 5 with
            | some tk => some (floatOfNumish tk)
            | none => s.econ
          else s.econ
        if !plausible_bowling s.o s.m s.dot s.r s.w econ then .ok none
        else
          let extras_text := joinCells (tail.filter (fun x => !is_numish x))
          let wides := extract_extra wdSyms extras_text
          let noballs := extract_extra nbSyms extras_text
          let score := countSome [s.o, s.m, s.dot, s.r, s.w, econ]
          if score < 4 then .ok none
          else .ok (some
            ⟨name, s.o, s.m, s.dot, s.r, s.w, econ, (wides : ℚ), (noballs : ℚ), match_id, score⟩)

/-! ### Fallible Python primitives (operations that raise when misused) -/

/-- Python `max(l)`: raises on an empty list. -/
def pyMax (l : List Nat) : Except String Nat :=
  match l with
  | [] => .error "max() arg is an empty sequence"
  | x :: xs => .ok (xs.foldl Nat.max x)

/-- Python `sorted(l)[-2]`: raises unless the list has at least two items. -/
def pySortedPenult (l : List Nat) : Except String Nat :=
  let s := l.mergeSort (fun a b => decide (a ≤ b))
  if 2 ≤ s.length then .ok (s.getD (s.length - 2) 0)
  else .error "list index out of range"

/-- Python `l[i]` for a non-negative index: raises when out of range. -/
def pyIndexNat (l : List Nat) (i : Nat) : Except String Nat :=
  match l.get? i with
  | some v => .ok v
  | none => .error "list index out of range"

/-- Python `a / b`: raises on a zero divisor. -/
def pydivQ (a b : ℚ) : Except String ℚ :=
  if b == 0 then .error "division by zero" else .ok (a / b)

/-- Python `round(x, 1)` (round half to even, at one decimal). -/
def pyRound1 (q : ℚ) : ℚ :=
  let x := q * 10
  let f : Int := Int.floor x
  let frac := x - (f : ℚ)
  let n : Int :=
    if frac < 1 / 2 then f
    else if 1 / 2 < frac then f + 1
    else if f % 2 == 0 then f else f + 1
  (n : ℚ) / 10

/-! ### The batting row extractor -/

structure DotEntry where
  balls : Nat
  dots : Nat
deriving DecidableEq

structure MatchMeta where
  match_date : Option String
  match_type : Option String
  is_playoff : Bool
deriving DecidableEq

structure BattingRec where
  name : String
  runs : Option ℚ
  balls : Option ℚ
  fours : Option ℚ
  sixes : Option ℚ
  sr : Option ℚ
  dismissal : String
  match_id : String
  position : Option Nat
  match_date : Option String
  match_type : Option String
  is_playoff : Bool
  dotinfo : Option (Nat × Nat × ℚ)
  score : Nat
deriving DecidableEq

/-- The candidate of a batting row right before the plausibility check. -/
structure BatCand where
  name : String
  how : String
  runs : Option ℚ
  balls : Option ℚ
  fours : Option ℚ
  sixes : Option ℚ
  sr : Option ℚ
deriving DecidableEq

/-- The integer-harvesting fallback of parse_batting_row (analyze.py lines
799-809): fills still-missing fields from the integer-valued cells. -/
def harvestB (runs balls fours sixes : Option ℚ) (ints : List Nat) :
    Except String (Option ℚ × Option ℚ × Option ℚ × Option ℚ) :=
  match (if runs.isNone && !ints.isEmpty
         then (pyMax ints).map (fun v => some (v : ℚ)) else .ok runs) with
  | .error e => .error e
  | .ok runs2 =>
  match (if balls.isNone && decide (2 ≤ ints.length)
         then (pySortedPenult ints).map (fun v => some (v : ℚ)) else .ok balls) with
  | .error e => .error e
  | .ok balls2 =>
  match (if fours.isNone && !(ints.filter (fun v => v ≤ 6)).isEmpty
         then (pyIndexNat (ints.filter (fun v => v ≤ 6)) 0).map (fun v => some (v : ℚ))
         else .ok fours) with
  | .error e => .error e
  | .ok fours2 =>
  match (if sixes.isNone && decide (2 ≤ (ints.filter (fun v => v ≤ 6)).length)
         then (pyIndexNat (ints.filter (fun v => v ≤ 6)) 1).map (fun v => some (v : ℚ))
         else .ok sixes) with
  | .error e => .error e
  | .ok sixes2 => .ok (runs2, balls2, fours2, sixes2)

/-- The `if pd.isna(x)` fill pattern of parse_batting_row: keep the current
value when present, otherwise take the fallback. -/
def fillIfNone (cur fallback : Option ℚ) : Option ℚ := if cur.isNone then fallback else cur

/-- A positional value kept only when at most 36 (the fours/sixes guard of
analyze.py lines 786-793). -/
def cap36 (o : Option ℚ) : Option ℚ :=
  match o with
  | some v => if v ≤ 36 then some v else none
  | none => none

/-- The strike-rate fallback scan (analyze.py lines 812-818): the first cell
whose float value lies in [20, 400]. -/
def srScan (cells : List String) : Option ℚ :=
  cells.findSome? (fun x =>
    match pyFloat? x with
    | some v => if decide (20 ≤ v) && decide (v ≤ 400) then some v else none
    | none => none)

/-- The boundary-count clamps (analyze.py lines 820-826): sixes×6 may not
exceed runs, and zero runs force present fours/sixes to zero. -/
def clampBoundary (runs fours sixes : Option ℚ) : Option ℚ × Option ℚ :=
  match runs with
  | some rv =>
    let sixesA :=
      match sixes with
      | some sv => if rv < sv * 6 then some (max (0 : ℚ) ((Int.floor (rv / 6) : Int) : ℚ)) else some sv
      | none => none
    let foursB := if rv == 0 then fours.map (fun _ => (0 : ℚ)) else fours
    let sixesB := if rv == 0 then sixesA.map (fun _ => (0 : ℚ)) else sixesA
    (foursB, sixesB)
  | none => (fours, sixes)

/-- Everything parse_batting_row computes before the plausibility gate
(analyze.py lines 732-827): noise filtering, name location and splitting,
the runs(balls) pattern, positional numeric collection, integer harvesting,
the strike-rate fallback and the boundary-count clamps. -/
def battingCandidate (cells : List String) : Except String (Option BatCand) :=
  match cells.find? (fun c => !(pyStrip c).isEmpty) with
  | none => .ok none
  | some first =>
  if is_section_like first then .ok none
  else match (cells.enum).find? (fun p => looks_name p.2) with
  | none => .ok none
  | some (name_idx, raw_name) =>
    let nd := split_name_and_dismissal raw_name
    if pyLowerRaw nd.1 == "extras" || pyLowerRaw nd.1 == "total" then .ok none
    else
      let rb := rbSearch (joinCells cells)
      let ons := orderedNums (cells.drop (name_idx + 1))
      let runs1 := fillIfNone (rb.map (fun p => p.1)) (ons.get? 0)
      let balls1 := fillIfNone (rb.map (fun p => p.2)) (ons.get? 1)
      let fours1 := cap36 (ons.get? 2)
      let sixes1 := cap36 (ons.get? 3)
      let sr1 : Option ℚ := ons.get? 4
      let ints := (cells.filter (fun x => !x.data.isEmpty && x.data.all isDigitC)).map
        (fun x => digitsToNat x.data)
      match harvestB runs1 balls1 fours1 sixes1 ints with
      | .error e => .error e
      | .ok hv =>
        let sr3 := fillIfNone sr1 (srScan cells)
        let clamped := clampBoundary hv.1 hv.2.2.1 hv.2.2.2
        .ok (some ⟨nd.1, nd.2, hv.1, hv.2.1, clamped.1, clamped.2, sr3⟩)

/-- The dot-ball lookup chain of parse_batting_row (analyze.py lines 846-876):
exact, starred, case-insensitive and first-name/prefix lookups into the
ball-by-ball counts, in order. -/
def dotLookupChain (name : String) (dot_lookup : List (String × DotEntry)) :
    Option DotEntry :=
    let get := fun (k : String) => (dot_lookup.find? (fun (kv : String × DotEntry) => kv.1 == k)).map (fun kv => kv.2)
    let dots0 := get name
    let dots1 :=
      match dots0 with
      | some d => some d
      | none =>
        if (pyLowerRaw name).endsWith "*" then
          get (title_clean ⟨name.data.filter (fun c => !(c == '*'))⟩)
        else none
    let dots2 :=
      match dots1 with
      | some d => some d
      | none =>
        (dot_lookup.find? (fun (kv : String × DotEntry) => pyLowerRaw kv.1 == pyLowerRaw name)).map Prod.snd
    let dots3 :=
      match dots2 with
      | some d => some d
      | none =>
        match pySplit name with
        | [] => none
        | p0 :: _ =>
          let first_name := pyLowerRaw p0
          (dot_lookup.find? (fun (kv : String × DotEntry) =>
            (match pySplit kv.1 with
             | q0 :: _ => pyLowerRaw q0 == first_name
             | [] => false) ||
            ((first_name.startsWith (pyLowerRaw kv.1) || (pyLowerRaw kv.1).startsWith first_name) &&
              decide (3 ≤ (pyLowerRaw kv.1).length) && decide (3 ≤ first_name.length)))).map
            Prod.snd
    dots3

/-- The dot-ball enrichment of parse_batting_row (analyze.py lines 845-886):
the looked-up counts, with the dot percentage computed only when tracked
balls exist. -/
def dotEnrich (name : String) (dot_lookup : List (String × DotEntry)) :
    Except String (Option (Nat × Nat × ℚ)) :=
  if dot_lookup.isEmpty then .ok none
  else
    match dotLookupChain name dot_lookup with
    | none => .ok none
    | some e =>
      if 0 < e.balls then
        match pydivQ (e.dots : ℚ) (e.balls : ℚ) with
        | .error msg => .error msg
        | .ok q => .ok (some (e.dots, e.balls, pyRound1 (q * 100)))
      else .ok none

/-- `parse_batting_row(cells, match_id, dot_lookup, meta, position)`
(analyze.py lines 732-888). -/
def parse_batting_row (cells : List String) (match_id : String)
    (dot_lookup : List (String × DotEntry)) (meta : Option MatchMeta)
    (position : Option Nat) : Except String (Option BattingRec) :=
  match battingCandidate cells with
  | .error e => .error e
  | .ok none => .ok none
  | .ok (some c) =>
    if plausible_batting c.runs c.balls c.sr c.fours c.sixes then
      match dotEnrich c.name dot_lookup with
      | .error e => .error e
      | .ok d => .ok (some {
          name := c.name
          runs := c.runs
          balls := c.balls
          fours := c.fours
          sixes := c.sixes
          sr := c.sr
          dismissal := c.how
          match_id := match_id
          position := position
          match_date := meta.bind (fun mm => mm.match_date)
          match_type := meta.bind (fun mm => mm.match_type)
          is_playoff :=
            match meta with
            | some mm => mm.is_playoff
            | none => false
          dotinfo := d
          score := countSome [c.runs, c.balls, c.fours, c.sixes, c.sr] })
    else .ok none

/-! ### Identity resolution (normalize_with_roster) -/

/-- `normalize_with_roster(name, roster, unknown)` (analyze.py lines 124-132);
the roster dict is given as its item list, the unknown set as a `Finset`. -/
def normalize_with_roster (name : String) (roster : List (String × String))
    (unknown : Finset String) : Option String × Finset String :=
  if roster.isEmpty then (some name, unknown)
  else
    match roster.find? (fun (kv : String × String) => kv.1 == canonical_name name) with
    | some kv => (some kv.2, unknown)
    | none => (none, insert (title_clean name) unknown)

/-! ### Toss decision (parse_match_metadata, analyze.py lines 288-307) -/

/-- The substring overlap the code tests between the subject team's and the
toss winner's canonical keys. -/
def keysOverlap (team_name toss_winner_name : String) : Bool :=
  let team_key := canonical_name team_name
  let winner_key := canonical_name toss_winner_name
  isSubstr team_key.data winner_key.data || isSubstr winner_key.data team_key.data

/-- The opposite of a toss choice, as the code computes it. -/
def invertDecision (d : String) : String := if d == "batted" then "bowled" else "batted"

/-- The contextual toss-decision computation: empty strings stand for the
absent (`None`/falsy) values of `team_name`, `toss_winner_name` and
`toss_winner_decision`. -/
def computeTossDecision (team_name toss_winner_name toss_winner_decision : String) :
    Option String :=
  if !team_name.isEmpty && !toss_winner_name.isEmpty && !toss_winner_decision.isEmpty then
    (if keysOverlap team_name toss_winner_name then some toss_winner_decision
     else some (invertDecision toss_winner_decision))
  else if !toss_winner_decision.isEmpty then some toss_winner_decision
  else none

/-! ### Word structure of canonical_name inputs (for the key-stability claim) -/

/-- The maximal [a-z0-9] runs of `lower(s)` - the "words" that survive the
canonical-key substitution. -/
def alnumWords (s : String) : List (List Char) :=
  wordsBy (fun c => !isLowAl c) (lowerChars s)

/-- Join word runs with single spaces. -/
def joinWords : List (List Char) → List Char
  | [] => []
  | [w] => w
  | w :: ws => w ++ ' ' :: joinWords ws

/-- What a non-first group of words contributes to a joined key: nothing if
there are no further words, else a separating space and the words. -/
def tailJoin (ws : List (List Char)) : List Char :=
  match ws with
  | [] => []
  | _ => ' ' :: joinWords ws

/-- The lower-cased [a-z0-9] characters of a raw name, separators deleted:
two names "differ only in capitalization and/or characters outside [a-z0-9]"
precisely when their skeletons agree. -/
def nameSkeleton (s : String) : String := ⟨(s.data.map asciiLower).filter isLowAl⟩

/-! ### The explicit R(B) pattern of the spec -/

/-- An integer directly followed by a parenthesized integer, at the head. -/
def explicitRBAt (cs : List Char) : Option (Nat × Nat) :=
  let d1 := cs.takeWhile isDigitC
  if d1.isEmpty then none
  else match cs.drop d1.length with
    | '(' :: r =>
      let d2 := r.takeWhile isDigitC
      if d2.isEmpty then none
      else match r.drop d2.length with
        | ')' :: _ => some (digitsToNat d1, digitsToNat d2)
        | _ => none
    | _ => none

/-- First explicit "R(B)" occurrence in a row's joined text. -/
def explicitRB? (s : String) : Option (ℚ × ℚ) :=
  ((List.range (s.data.length + 1)).findSome? (fun i => explicitRBAt (s.data.drop i))).map
    (fun p => ((p.1 : ℚ), (p.2 : ℚ)))

/-! ## Theorems -/

/-- C1: the opponent chosen from the table-derived team set depends on the
iteration order of that set: the two orders below are permutations of each
other (the same set of candidates), pass the same filters against subject
key "strikers", yet yield different opponent_team values - so two runs of
the pipeline need not agree, refuting the determinism claim on the code. -/
theorem opponent_from_tables_order_dependent :
    List.Perm [("Riders", "riders"), ("Chargers", "chargers")]
      [("Chargers", "chargers"), ("Riders", "riders")] ∧
    opponent_from_tables [("Riders", "riders"), ("Chargers", "chargers")] "strikers" =
      some "Riders" ∧
    opponent_from_tables [("Chargers", "chargers"), ("Riders", "riders")] "strikers" =
      some "Chargers" ∧
    ("Riders" : String) ≠ "Chargers" :=
  ⟨List.Perm.swap _ _ _, by with_unfolding_all decide, by with_unfolding_all decide,
    by with_unfolding_all decide⟩

/-- C2: the date "10/18/2025" parses to "2025-10-18" as claimed, but
"2025-18-10" parses to nothing at all: strptime with format %Y-%m-%d rejects
month 18 before the YYYY-DD-MM reinterpretation branch (which sits inside
the success path of that very strptime call) can run, so the claimed
reinterpretation to "2025-10-18" never happens. -/
theorem parse_date_safely_ymd_no_reinterpret :
    parse_date_safely "10/18/2025" = some "2025-10-18" ∧
    parse_date_safely "2025-18-10" = none :=
  ⟨by with_unfolding_all decide, by with_unfolding_all decide⟩

/-- C3 (counterexample): for the literal tail [_, 3, 2, 18, 1, 6.0] the
pre-econ-fallback slots are not the claimed
(overs=2, maidens=18, dots=1, runs=6.0, wickets=absent, econ=absent). -/
theorem bowling_shift_claim_false :
    bowling_slots_preEcon ["_", "3", "2", "18", "1", "6.0"] ≠
      ⟨some 2, some 18, some 1, some 6, none, none⟩ := by with_unfolding_all decide

/-- C3 (amended): on the literal tail [_, 3, 2, 18, 1, 6.0] the shift-left
correction does not fire - the overs slot is filled by the first numeric
token (the non-numeric "_" is dropped before slot assignment, so overs can
never be absent while four later slots are present) - and the slots before
the economy-fallback step are
(overs=3, maidens=2, dots=18, runs=1, wickets=6.0, econ=absent). -/
theorem bowling_slots_literal_tail :
    bowling_slots_preEcon ["_", "3", "2", "18", "1", "6.0"] =
      ⟨some 3, some 2, some 18, some 1, some 6, none⟩ := by with_unfolding_all decide

/-- C4: a bowling row whose joined cell text contains a dismissal keyword
(a DISMISS_ANY match, e.g. "run out" or "not out") is always rejected, and
consequently every emitted bowling record comes from a row whose joined
text contains no dismissal keyword. -/
theorem bowling_rejects_dismissal_rows (cells : List String) (mid : String) :
    (dismissFound (joinCells cells) = true → parse_bowling_row cells mid = .ok none) ∧
    (∀ rec, parse_bowling_row cells mid = .ok (some rec) →
      dismissFound (joinCells cells) = false) := by
  constructor
  · intro h
    unfold parse_bowling_row
    simp [h]
  · intro rec h
    cases hd : dismissFound (joinCells cells) with
    | false => rfl
    | true =>
      unfold parse_bowling_row at h
      simp [hd] at h

theorem bowling_rejects_dismissal_rows_witness :
    parse_bowling_row ["Sandeep P run out", "3", "2", "18", "1"] "m1" = .ok none :=
  (bowling_rejects_dismissal_rows _ _).1 (by with_unfolding_all decide)

theorem inRangeQ_some {lo hi v : ℚ} {o : Option ℚ} (h : inRangeQ lo hi o = true)
    (hv : o = some v) : lo ≤ v ∧ v ≤ hi := by
  subst hv
  simpa only [inRangeQ, Bool.and_eq_true, decide_eq_true_eq] using h

theorem atMostQ_some {hi v : ℚ} {o : Option ℚ} (h : atMostQ hi o = true)
    (hv : o = some v) : v ≤ hi := by
  subst hv
  simpa only [atMostQ, decide_eq_true_eq] using h

/-- C5: every batting record finalized by parse_batting_row satisfies the
plausibility bounds on its present numeric fields - Runs in [0,200], Balls
in [0,120], StrikeRate in [10,400], Fours at most 30, Sixes at most 20 -
and a candidate row whose fields fail plausible_batting is rejected
(the extractor returns None rather than a record). -/
theorem batting_record_plausibility_bounds (cells : List String) (mid : String)
    (dl : List (String × DotEntry)) (meta : Option MatchMeta) (pos : Option Nat) :
    (∀ rec, parse_batting_row cells mid dl meta pos = .ok (some rec) →
      (∀ v, rec.runs = some v → 0 ≤ v ∧ v ≤ 200) ∧
      (∀ v, rec.balls = some v → 0 ≤ v ∧ v ≤ 120) ∧
      (∀ v, rec.sr = some v → 10 ≤ v ∧ v ≤ 400) ∧
      (∀ v, rec.fours = some v → v ≤ 30) ∧
      (∀ v, rec.sixes = some v → v ≤ 20)) ∧
    (∀ c, battingCandidate cells = .ok (some c) →
      plausible_batting c.runs c.balls c.sr c.fours c.sixes = false →
      parse_batting_row cells mid dl meta pos = .ok none) := by
  constructor
  · intro rec h
    unfold parse_batting_row at h
    cases hc : battingCandidate cells with
    | error e => rw [hc] at h; simp at h
    | ok o =>
      rw [hc] at h
      match o with
      | none => simp at h
      | some c =>
        cases hp : plausible_batting c.runs c.balls c.sr c.fours c.sixes with
        | false => simp [hp] at h
        | true =>
          cases hd : dotEnrich c.name dl with
          | error e => simp [hp, hd] at h
          | ok d =>
            simp only [hp, hd, if_true] at h
            simp only [Except.ok.injEq, Option.some.injEq] at h
            subst h
            simp only [plausible_batting, Bool.and_eq_true] at hp
            obtain ⟨⟨⟨⟨h1, h2⟩, h3⟩, h4⟩, h5⟩ := hp
            exact ⟨fun v hv => inRangeQ_some h1 hv,
                   fun v hv => inRangeQ_some h2 hv,
                   fun v hv => inRangeQ_some h3 hv,
                   fun v hv => atMostQ_some h4 hv,
                   fun v hv => atMostQ_some h5 hv⟩
  · intro c hc hp
    unfold parse_batting_row
    rw [hc]
    simp [hp]

theorem batting_record_plausibility_bounds_witness :
    (0 : ℚ) ≤ 45 ∧ (45 : ℚ) ≤ 200 :=
  (((batting_record_plausibility_bounds ["Sandeep", "45(30)"] "m1" [] none none).1
      ⟨"Sandeep", some 45, some 30, none, none, none, "", "m1", none, none, none, false, none, 2⟩
      (by with_unfolding_all rfl)).1) 45 rfl

/-- C7: the toss decision is recorded relative to the subject team - when
the toss winner's canonical key overlaps the subject team's key (substring
containment either way) the winner's literal choice is recorded, otherwise
the opposite choice is recorded; in particular subject "Strikers" with toss
winner "Riders" electing to bat yields "bowled". -/
theorem toss_decision_relative_to_subject :
    (∀ t w d, t ≠ "" → w ≠ "" → (d = "batted" ∨ d = "bowled") →
      computeTossDecision t w d =
        some (if keysOverlap t w then d else invertDecision d)) ∧
    computeTossDecision "Strikers" "Riders" "batted" = some "bowled" := by
  constructor
  · intro t w d ht hw hd
    have ht' : t.isEmpty = false := by
      rw [Bool.eq_false_iff]; intro hh; exact ht ((String.isEmpty_iff t).1 hh)
    have hw' : w.isEmpty = false := by
      rw [Bool.eq_false_iff]; intro hh; exact hw ((String.isEmpty_iff w).1 hh)
    have hdne : d ≠ "" := by rcases hd with rfl | rfl <;> decide
    have hd' : d.isEmpty = false := by
      rw [Bool.eq_false_iff]; intro hh; exact hdne ((String.isEmpty_iff d).1 hh)
    unfold computeTossDecision
    rw [ht', hw', hd']
    cases hko : keysOverlap t w <;> simp [hko]
  · with_unfolding_all decide

theorem toss_decision_relative_to_subject_witness :
    computeTossDecision "Strikers" "Riders" "batted" =
      some (if keysOverlap "Strikers" "Riders" then "batted" else invertDecision "batted") :=
  toss_decision_relative_to_subject.1 "Strikers" "Riders" "batted"
    (by decide) (by decide) (Or.inl rfl)

/-- C9 (counterexample): with a roster present and a name missing from it,
the value logged into the unknown-name set is the title-cased display form
of the name, not its canonical key: for "JOHN-DOE" the set receives
"John-Doe" while the canonical key "john doe" is absent from the set. -/
theorem normalize_with_roster_logs_display_not_key :
    (normalize_with_roster "JOHN-DOE" [("sandeep", "Sandeep")] ∅).1 = none ∧
    title_clean "JOHN-DOE" ∈ (normalize_with_roster "JOHN-DOE" [("sandeep", "Sandeep")] ∅).2 ∧
    canonical_name "JOHN-DOE" ∉ (normalize_with_roster "JOHN-DOE" [("sandeep", "Sandeep")] ∅).2 ∧
    canonical_name "JOHN-DOE" = "john doe" ∧ title_clean "JOHN-DOE" = "John-Doe" := by
  refine ⟨?_, ?_, ?_, ?_, ?_⟩ <;> with_unfolding_all decide

/-- C9 (amended): with a non-empty roster, a name whose canonical key is
absent from the roster is excluded (no display name is returned) and its
title-cleaned display form is added to the unknown-name diagnostic set;
with no roster, the name passes through unchanged and the set is untouched. -/
theorem normalize_with_roster_filtering (name : String) (roster : List (String × String))
    (unknown : Finset String) :
    (roster = [] → normalize_with_roster name roster unknown = (some name, unknown)) ∧
    (roster ≠ [] →
      roster.find? (fun (kv : String × String) => kv.1 == canonical_name name) = none →
      (normalize_with_roster name roster unknown).1 = none ∧
      (normalize_with_roster name roster unknown).2 = insert (title_clean name) unknown) := by
  constructor
  · intro h; subst h; rfl
  · intro hne hfind
    have hre : roster.isEmpty = false := by
      cases roster with
      | nil => exact absurd rfl hne
      | cons a l => rfl
    unfold normalize_with_roster
    rw [hre, hfind]
    exact ⟨rfl, rfl⟩

theorem normalize_with_roster_filtering_witness :
    (normalize_with_roster "JOHN-DOE" [("sandeep", "Sandeep")] ∅).1 = none ∧
    (normalize_with_roster "JOHN-DOE" [("sandeep", "Sandeep")] ∅).2 =
      insert (title_clean "JOHN-DOE") ∅ :=
  (normalize_with_roster_filtering "JOHN-DOE" [("sandeep", "Sandeep")] ∅).2
    (by decide) (by with_unfolding_all decide)

theorem pyMax_ok {l : List Nat} (h : l.isEmpty = false) : ∃ v, pyMax l = .ok v := by
  cases l with
  | nil => simp at h
  | cons x xs => exact ⟨xs.foldl Nat.max x, rfl⟩

theorem pySortedPenult_ok {l : List Nat} (h : 2 ≤ l.length) : ∃ v, pySortedPenult l = .ok v := by
  simp only [pySortedPenult]
  rw [if_pos (by simpa using h)]
  exact ⟨_, rfl⟩

theorem pyIndexNat_ok {l : List Nat} {i : Nat} (h : i < l.length) : ∃ v, pyIndexNat l i = .ok v := by
  unfold pyIndexNat
  cases hg : l.get? i with
  | none =>
    rw [List.get?_eq_none] at hg
    omega
  | some v => exact ⟨v, rfl⟩

theorem pydivQ_ok {a b : ℚ} (h : b ≠ 0) : pydivQ a b = .ok (a / b) := by
  simp [pydivQ, h]

theorem exceptIf_ok {α : Type} (cond : Bool) (e : Except String α) (cur : α)
    (h : cond = true → ∃ v, e = .ok v) :
    ∃ out, (if cond then e else .ok cur) = .ok out := by
  cases cond with
  | false => exact ⟨cur, rfl⟩
  | true =>
    obtain ⟨v, hv⟩ := h rfl
    exact ⟨v, by simpa using hv⟩

theorem harvestB_ok (runs balls fours sixes : Option ℚ) (ints : List Nat) :
    ∃ out, harvestB runs balls fours sixes ints = .ok out := by
  unfold harvestB
  obtain ⟨r2, hr⟩ := exceptIf_ok (runs.isNone && !ints.isEmpty)
    ((pyMax ints).map (fun v => some (v : ℚ))) runs (by
      intro hcnd
      rw [Bool.and_eq_true] at hcnd
      obtain ⟨v, hv⟩ := pyMax_ok (by simpa using hcnd.2)
      exact ⟨some v, by rw [hv]; rfl⟩)
  rw [hr]
  obtain ⟨b2, hb⟩ := exceptIf_ok (balls.isNone && decide (2 ≤ ints.length))
    ((pySortedPenult ints).map (fun v => some (v : ℚ))) balls (by
      intro hcnd
      rw [Bool.and_eq_true] at hcnd
      obtain ⟨v, hv⟩ := pySortedPenult_ok (by simpa using hcnd.2)
      exact ⟨some v, by rw [hv]; rfl⟩)
  rw [hb]
  obtain ⟨f2, hf⟩ := exceptIf_ok (fours.isNone && !(ints.filter (fun v => v ≤ 6)).isEmpty)
    ((pyIndexNat (ints.filter (fun v => v ≤ 6)) 0).map (fun v => some (v : ℚ))) fours (by
      intro hcnd
      rw [Bool.and_eq_true] at hcnd
      have hlen : 0 < (ints.filter (fun v => v ≤ 6)).length := by
        cases hfl : ints.filter (fun v => v ≤ 6) with
        | nil => rw [hfl] at hcnd; simp at hcnd
        | cons a l => simp
      obtain ⟨v, hv⟩ := pyIndexNat_ok hlen
      exact ⟨some v, by rw [hv]; rfl⟩)
  rw [hf]
  obtain ⟨s2, hs⟩ := exceptIf_ok (sixes.isNone && decide (2 ≤ (ints.filter (fun v => v ≤ 6)).length))
    ((pyIndexNat (ints.filter (fun v => v ≤ 6)) 1).map (fun v => some (v : ℚ))) sixes (by
      intro hcnd
      rw [Bool.and_eq_true] at hcnd
      have hlen : 1 < (ints.filter (fun v => v ≤ 6)).length := by
        have := hcnd.2
        simp only [decide_eq_true_eq] at this
        omega
      obtain ⟨v, hv⟩ := pyIndexNat_ok hlen
      exact ⟨some v, by rw [hv]; rfl⟩)
  rw [hs]
  exact ⟨(r2, b2, f2, s2), rfl⟩

theorem harvestB_runs_balls {r b : ℚ} {fours sixes : Option ℚ} {ints : List Nat}
    {hv : Option ℚ × Option ℚ × Option ℚ × Option ℚ}
    (h : harvestB (some r) (some b) fours sixes ints = .ok hv) :
    hv.1 = some r ∧ hv.2.1 = some b := by
  unfold harvestB at h
  simp only [Option.isNone_some, Bool.false_and, Bool.false_eq_true, if_false] at h
  split at h
  · cases h
  · split at h
    · cases h
    · rename_i f2 hf s2 hs
      cases h
      exact ⟨rfl, rfl⟩

theorem dotEnrich_ok (name : String) (dl : List (String × DotEntry)) :
    ∃ d, dotEnrich name dl = .ok d := by
  unfold dotEnrich
  split
  · exact ⟨none, rfl⟩
  · split
    · exact ⟨none, rfl⟩
    · rename_i e he
      split
      · rename_i hb
        split
        · rename_i msg hmsg
          rw [pydivQ_ok (show ((e.balls : ℚ)) ≠ 0 by
            exact_mod_cast (show e.balls ≠ 0 by omega))] at hmsg
          cases hmsg
        · exact ⟨_, rfl⟩
      · exact ⟨none, rfl⟩

theorem battingCandidate_ok (cells : List String) :
    ∃ o, battingCandidate cells = .ok o := by
  simp only [battingCandidate]
  split
  · exact ⟨none, rfl⟩
  · split
    · exact ⟨none, rfl⟩
    · split
      · exact ⟨none, rfl⟩
      · split
        · exact ⟨none, rfl⟩
        · split
          · rename_i e heq
            obtain ⟨o, ho⟩ := harvestB_ok _ _ _ _ _
            rw [ho] at heq
            cases heq
          · exact ⟨_, rfl⟩

theorem parse_batting_row_ok (cells : List String) (mid : String)
    (dl : List (String × DotEntry)) (meta : Option MatchMeta) (pos : Option Nat) :
    ∃ v, parse_batting_row cells mid dl meta pos = .ok v := by
  unfold parse_batting_row
  split
  · rename_i e heq
    obtain ⟨o, ho⟩ := battingCandidate_ok cells
    rw [ho] at heq
    cases heq
  · exact ⟨none, rfl⟩
  · rename_i c heq
    split
    · split
      · rename_i e hde
        obtain ⟨d, hd⟩ := dotEnrich_ok c.name dl
        rw [hd] at hde
        cases hde
      · exact ⟨_, rfl⟩
    · exact ⟨none, rfl⟩

theorem parse_bowling_row_ok (cells : List String) (mid : String) :
    ∃ w, parse_bowling_row cells mid = .ok w := by
  simp only [parse_bowling_row]
  repeat' split
  all_goals exact ⟨_, rfl⟩

theorem battingCandidate_rb {cells : List String} {r b : ℚ} {c : BatCand}
    (hrb : rbSearch (joinCells cells) = some (r, b))
    (hc : battingCandidate cells = .ok (some c)) :
    c.runs = some r ∧ c.balls = some b := by
  simp only [battingCandidate, hrb, Option.map_some', fillIfNone, Option.isNone_some,
    Bool.false_eq_true, if_false] at hc
  split at hc
  · simp at hc
  · split at hc
    · simp at hc
    · split at hc
      · simp at hc
      · split at hc
        · simp at hc
        · split at hc
          · cases hc
          · rename_i hv heq
            simp only [Except.ok.injEq, Option.some.injEq] at hc
            subst hc
            exact harvestB_runs_balls heq

/-- C6 (counterexample): the row ["Dhiraj P", "7", "45(30)"] contains the
explicit R(B) pattern 45(30), yet the extracted Runs/Balls are 7/45: the
regex the code searches with also accepts a space in place of the opening
parenthesis, and its leftmost match "7 45" preempts the parenthetical. -/
theorem batting_rb_pattern_claim_false :
    explicitRB? (joinCells ["Dhiraj P", "7", "45(30)"]) = some (45, 30) ∧
    parse_batting_row ["Dhiraj P", "7", "45(30)"] "m1" [] none none =
      .ok (some ⟨"Dhiraj P", some 7, some 45, some 30, none, none, "", "m1",
        none, none, none, false, none, 3⟩) ∧
    some (7 : ℚ) ≠ some (45 : ℚ) := by
  refine ⟨?_, ?_, ?_⟩
  · with_unfolding_all decide
  · with_unfolding_all rfl
  · with_unfolding_all decide

/-- C6 (amended): Runs and Balls come from the leftmost match of the regex
pattern digits, optional whitespace, '(' or whitespace, optional whitespace,
digits, optional ')' over the joined row text; whenever that leftmost match
is the explicit R(B) parenthetical (in particular when no earlier
digit-whitespace-digit occurrence precedes it), every record extracted from
the row carries exactly those R and B values. -/
theorem batting_rb_first_match (cells : List String) (mid : String)
    (dl : List (String × DotEntry)) (meta : Option MatchMeta) (pos : Option Nat)
    (r b : ℚ) (rec : BattingRec)
    (hrb : rbSearch (joinCells cells) = some (r, b))
    (h : parse_batting_row cells mid dl meta pos = .ok (some rec)) :
    rec.runs = some r ∧ rec.balls = some b := by
  unfold parse_batting_row at h
  cases hc : battingCandidate cells with
  | error e => rw [hc] at h; cases h
  | ok o =>
    rw [hc] at h
    match o with
    | none => simp at h
    | some c =>
      have hcand := battingCandidate_rb hrb hc
      cases hp : plausible_batting c.runs c.balls c.sr c.fours c.sixes with
      | false => simp [hp] at h
      | true =>
        cases hd : dotEnrich c.name dl with
        | error e => simp [hp, hd] at h
        | ok d =>
          simp only [hp, hd, if_true, Except.ok.injEq, Option.some.injEq] at h
          subst h
          exact hcand

theorem batting_rb_first_match_witness :
    (⟨"Sandeep", some 45, some 30, none, none, none, "", "m1", none, none, none, false,
       none, 2⟩ : BattingRec).runs = some 45 ∧
    (⟨"Sandeep", some 45, some 30, none, none, none, "", "m1", none, none, none, false,
       none, 2⟩ : BattingRec).balls = some 30 :=
  batting_rb_first_match ["Sandeep", "45(30)"] "m1" [] none none 45 30 _
    (by with_unfolding_all decide) (by with_unfolding_all rfl)

theorem isLowAl_not_ws {a : Char} (h : isLowAl a = true) : isWsC a = false := by
  have hn : (97 ≤ a.toNat ∧ a.toNat ≤ 122) ∨ (48 ≤ a.toNat ∧ a.toNat ≤ 57) := by
    simpa [isLowAl, isLowerC, isDigitC, Bool.or_eq_true, Bool.and_eq_true,
      decide_eq_true_eq] using h
  rw [Bool.eq_false_iff]
  intro hw
  have hw' : a = ' ' ∨ a = '\t' ∨ a = '\n' ∨ a = '\r' ∨ a = '\x0b' ∨ a = '\x0c' := by
    have hx := hw
    simp only [isWsC, Bool.or_eq_true, beq_iff_eq] at hx
    tauto
  rcases hw' with rfl | rfl | rfl | rfl | rfl | rfl <;> revert hn <;> decide

theorem isLowAl_ne_space {a : Char} (h : isLowAl a = true) : (a == ' ') = false := by
  have hws := isLowAl_not_ws h
  rw [Bool.eq_false_iff] at hws ⊢
  intro hb
  rw [beq_iff_eq] at hb
  subst hb
  exact hws rfl

theorem toSpC_alnum {a : Char} (h : isLowAl a = true) : toSpC a = a := by
  simp [toSpC, h]

theorem toSpC_sep {a : Char} (h : isLowAl a = false) : toSpC a = ' ' := by
  simp [toSpC, h]

theorem collapseRuns_cons_ne {a : Char} (ha : (a == ' ') = false) (m : List Char) :
    collapseRuns (a :: m) = a :: collapseRuns m := by
  cases m with
  | nil => rfl
  | cons b r => simp [collapseRuns, ha]

theorem collapseRuns_space_space (m : List Char) :
    collapseRuns (' ' :: ' ' :: m) = collapseRuns (' ' :: m) := by
  simp [collapseRuns]

theorem collapseRuns_space_ne {b : Char} (hb : (b == ' ') = false) (m : List Char) :
    collapseRuns (' ' :: b :: m) = ' ' :: collapseRuns (b :: m) := by
  simp [collapseRuns, hb]

theorem collapseRuns_append_run (u m : List Char) (hu : ∀ a ∈ u, (a == ' ') = false) :
    collapseRuns (u ++ m) = u ++ collapseRuns m := by
  induction u with
  | nil => rfl
  | cons a u' ih =>
    rw [List.cons_append, collapseRuns_cons_ne (hu a (by simp)),
      ih (fun x hx => hu x (by simp [hx]))]
    rfl

theorem stripR_cons_ne {a : Char} (ha : isWsC a = false) (x : List Char) :
    stripR (a :: x) = a :: stripR x := by
  cases h : stripR x with
  | nil => simp [stripR, h, ha]
  | cons c y => simp [stripR, h]

theorem stripR_append_run (u x : List Char) (hu : ∀ a ∈ u, isWsC a = false) :
    stripR (u ++ x) = u ++ stripR x := by
  induction u with
  | nil => rfl
  | cons a u' ih =>
    rw [List.cons_append, stripR_cons_ne (hu a (by simp)),
      ih (fun b hb => hu b (by simp [hb]))]
    rfl

theorem stripR_space_cons {y : List Char} (hy : stripR y ≠ []) :
    stripR (' ' :: y) = ' ' :: stripR y := by
  cases h : stripR y with
  | nil => exact absurd h hy
  | cons c z => simp [stripR, h]

theorem dropWs_cons_ne {a : Char} (ha : isWsC a = false) (x : List Char) :
    dropWs (a :: x) = a :: x := by
  simp [dropWs, List.dropWhile_cons, ha]

theorem dropWs_cons_space (x : List Char) : dropWs (' ' :: x) = dropWs x := by
  simp [dropWs, List.dropWhile_cons, isWsC]

theorem map_toSpC_run (u : List Char) (hu : ∀ a ∈ u, isLowAl a = true) :
    u.map toSpC = u := by
  induction u with
  | nil => rfl
  | cons a u' ih =>
    rw [List.map_cons, toSpC_alnum (hu a (by simp)), ih (fun b hb => hu b (by simp [hb]))]

theorem dropWhile_head_false {α : Type} (q : α → Bool) (l : List α) :
    ∀ c cs, l.dropWhile q = c :: cs → q c = false := by
  induction l with
  | nil => intro c cs h; cases h
  | cons a l' ih =>
    intro c cs h
    by_cases hq : q a = true
    · rw [List.dropWhile_cons, if_pos hq] at h
      exact ih c cs h
    · rw [List.dropWhile_cons, if_neg hq] at h
      cases h
      exact Bool.eq_false_iff.mpr hq

theorem joinWords_cons (w : List Char) (ws : List (List Char)) :
    joinWords (w :: ws) = w ++ tailJoin ws := by
  cases ws with
  | nil => simp [joinWords, tailJoin]
  | cons w2 ws2 => rfl

theorem joinWords_ne_nil {w : List Char} (hw : w ≠ []) (ws : List (List Char)) :
    joinWords (w :: ws) ≠ [] := by
  rw [joinWords_cons]
  intro h
  exact hw (List.append_eq_nil.mp h).1

theorem wordsBy_nil (p : Char → Bool) : wordsBy p [] = [] := by
  rw [wordsBy]

theorem wordsBy_cons_sep (p : Char → Bool) (c : Char) (hc : p c = true) (cs : List Char) :
    wordsBy p (c :: cs) = wordsBy p cs := by
  rw [wordsBy]
  simp [hc]

theorem wordsBy_cons_word (p : Char → Bool) (c : Char) (hc : p c = false) (cs : List Char) :
    wordsBy p (c :: cs) =
      (c :: cs.takeWhile (fun x => !p x)) :: wordsBy p (cs.dropWhile (fun x => !p x)) := by
  rw [wordsBy]
  simp [hc]

theorem stripL_collapse_space (m : List Char) :
    stripL (collapseRuns (' ' :: m)) = stripL (collapseRuns m) := by
  cases m with
  | nil => rfl
  | cons b m' =>
    by_cases hb : (b == ' ') = true
    · rw [beq_iff_eq] at hb
      subst hb
      rw [collapseRuns_space_space]
    · rw [collapseRuns_space_ne (Bool.eq_false_iff.mpr hb)]
      unfold stripL
      rw [dropWs_cons_space]

/-- The canonical-key pipeline computes exactly the space-joined list of
maximal [a-z0-9] runs: part one for arbitrary suffixes, part two for
suffixes beginning at a separator (or empty). -/
theorem canonWords : ∀ (n : Nat) (l : List Char), l.length ≤ n →
    (stripL (collapseRuns (l.map toSpC)) = joinWords (wordsBy (fun c => !isLowAl c) l)) ∧
    ((match l with | [] => True | c :: _ => isLowAl c = false) →
      stripR (collapseRuns (l.map toSpC)) = tailJoin (wordsBy (fun c => !isLowAl c) l)) := by
  intro n
  induction n with
  | zero =>
    intro l hl
    have hnil : l = [] := List.length_eq_zero.mp (Nat.le_zero.mp hl)
    subst hnil
    rw [wordsBy_nil]
    exact ⟨rfl, fun _ => rfl⟩
  | succ n ih =>
    intro l hl
    cases l with
    | nil =>
      rw [wordsBy_nil]
      exact ⟨rfl, fun _ => rfl⟩
    | cons c cs =>
      have hcs : cs.length ≤ n := by
        simp only [List.length_cons] at hl
        omega
      by_cases hc : isLowAl c = true
      · -- c starts a word run
        have hwords := wordsBy_cons_word (fun x => !isLowAl x) c (by simp [hc]) cs
        simp only [Bool.not_not] at hwords
        have hsplit : cs.takeWhile (fun x => isLowAl x) ++ cs.dropWhile (fun x => isLowAl x) = cs :=
          List.takeWhile_append_dropWhile (fun x => isLowAl x) cs
        have htw : ∀ a ∈ cs.takeWhile (fun x => isLowAl x), isLowAl a = true := by
          intro a ha
          exact List.mem_takeWhile_imp ha
        have hdw : (cs.dropWhile (fun x => isLowAl x)).length ≤ n :=
          le_trans (List.dropWhile_sublist _).length_le hcs
        have hdwsep : (match cs.dropWhile (fun x => isLowAl x) with
            | [] => True | d :: _ => isLowAl d = false) := by
          cases hdd : cs.dropWhile (fun x => isLowAl x) with
          | nil => trivial
          | cons d rest => exact dropWhile_head_false _ cs d rest hdd
        have hurun : ∀ a ∈ c :: cs.takeWhile (fun x => isLowAl x), (a == ' ') = false := by
          intro a ha
          rcases List.mem_cons.mp ha with rfl | hmem
          · exact isLowAl_ne_space hc
          · exact isLowAl_ne_space (htw a hmem)
        have huws : ∀ a ∈ c :: cs.takeWhile (fun x => isLowAl x), isWsC a = false := by
          intro a ha
          rcases List.mem_cons.mp ha with rfl | hmem
          · exact isLowAl_not_ws hc
          · exact isLowAl_not_ws (htw a hmem)
        have hmapeq : (c :: cs).map toSpC =
            (c :: cs.takeWhile (fun x => isLowAl x)) ++
              (cs.dropWhile (fun x => isLowAl x)).map toSpC := by
          rw [List.map_cons, toSpC_alnum hc]
          rw [show cs.map toSpC = (cs.takeWhile (fun x => isLowAl x)).map toSpC ++
              (cs.dropWhile (fun x => isLowAl x)).map toSpC by
            rw [← List.map_append, hsplit]]
          rw [map_toSpC_run _ htw]
          rfl
        have hmain : stripL (collapseRuns ((c :: cs).map toSpC)) =
            (c :: cs.takeWhile (fun x => isLowAl x)) ++
              stripR (collapseRuns ((cs.dropWhile (fun x => isLowAl x)).map toSpC)) := by
          rw [hmapeq, collapseRuns_append_run _ _ hurun]
          unfold stripL
          rw [show (c :: cs.takeWhile (fun x => isLowAl x)) ++
              collapseRuns ((cs.dropWhile (fun x => isLowAl x)).map toSpC) =
              c :: (cs.takeWhile (fun x => isLowAl x) ++
                collapseRuns ((cs.dropWhile (fun x => isLowAl x)).map toSpC)) from rfl]
          rw [dropWs_cons_ne (isLowAl_not_ws hc)]
          exact stripR_append_run _ _ huws
        constructor
        · rw [hmain, hwords, joinWords_cons, (ih _ hdw).2 hdwsep]
        · intro hsep
          have hf : isLowAl c = false := hsep
          rw [hc] at hf
          exact absurd hf (by decide)
      · -- c is a separator
        have hc' : isLowAl c = false := Bool.eq_false_iff.mpr hc
        have hwords := wordsBy_cons_sep (fun x => !isLowAl x) c (by simp [hc']) cs
        have hmaps : (c :: cs).map toSpC = ' ' :: cs.map toSpC := by
          rw [List.map_cons, toSpC_sep hc']
        constructor
        · rw [hmaps, stripL_collapse_space, hwords]
          exact (ih _ hcs).1
        · intro hsep
          rw [hmaps, hwords]
          cases cs with
          | nil =>
            rw [wordsBy_nil]
            rfl
          | cons d cs' =>
            by_cases hd : isLowAl d = true
            · -- next char starts a word: one separating space survives
              have hmapd : (d :: cs').map toSpC = d :: cs'.map toSpC := by
                rw [List.map_cons, toSpC_alnum hd]
              rw [hmapd, collapseRuns_space_ne (isLowAl_ne_space hd)]
              have hX : collapseRuns (d :: cs'.map toSpC) = d :: collapseRuns (cs'.map toSpC) :=
                collapseRuns_cons_ne (isLowAl_ne_space hd) _
              have hY : stripR (collapseRuns (d :: cs'.map toSpC)) =
                  joinWords (wordsBy (fun x => !isLowAl x) (d :: cs')) := by
                have h1 := (ih _ hcs).1
                rw [hmapd] at h1
                rw [← h1]
                unfold stripL
                rw [hX, dropWs_cons_ne (isLowAl_not_ws hd), ← hX]
              have hwd := wordsBy_cons_word (fun x => !isLowAl x) d (by simp [hd]) cs'
              simp only [Bool.not_not] at hwd
              have hnn : stripR (collapseRuns (d :: cs'.map toSpC)) ≠ [] := by
                rw [hY, hwd]
                exact joinWords_ne_nil (List.cons_ne_nil _ _) _
              rw [stripR_space_cons hnn, hY, hwd]
              rfl
            · -- another separator: the extra space collapses away
              have hd' : isLowAl d = false := Bool.eq_false_iff.mpr hd
              have hmapd : (d :: cs').map toSpC = ' ' :: cs'.map toSpC := by
                rw [List.map_cons, toSpC_sep hd']
              rw [hmapd, collapseRuns_space_space, ← hmapd]
              exact (ih _ hcs).2 hd'

/-- The canonical key is the space-join of the name's lower-cased maximal
[a-z0-9] runs. -/
theorem canonical_name_eq_joinWords (s : String) :
    canonical_name s = ⟨joinWords (alnumWords s)⟩ := by
  unfold canonical_name alnumWords
  exact congrArg String.mk ((canonWords (lowerChars s).length (lowerChars s) le_rfl).1)

/-- C8 (counterexample): "A.B" and "AB" differ only in a character outside
[a-z0-9] (the dot: their lower-cased [a-z0-9] skeletons agree), yet their
canonical keys differ - the substitution turns the dot into a space, giving
"a b" versus "ab". -/
theorem canonical_name_claim_false :
    nameSkeleton "A.B" = nameSkeleton "AB" ∧
    canonical_name "A.B" ≠ canonical_name "AB" := by
  constructor
  · with_unfolding_all decide
  · with_unfolding_all decide

/-- C8 (amended): the canonical key depends only on the name's list of
lower-cased maximal [a-z0-9] runs: two raw names with the same run list -
i.e. differing only in letter capitalization, in the choice of separator
characters between runs, and in leading/trailing separators - get the same
key; deleting a separator between two runs merges them and may change the
key. -/
theorem canonical_name_word_invariant (s t : String)
    (h : alnumWords s = alnumWords t) : canonical_name s = canonical_name t := by
  rw [canonical_name_eq_joinWords s, canonical_name_eq_joinWords t, h]

theorem canonical_name_word_invariant_witness :
    canonical_name "A-B" = canonical_name "a  b" :=
  canonical_name_word_invariant "A-B" "a  b" (by with_unfolding_all decide)

/-- C10: both row extractors are total: on every list of cell strings and
every choice of the remaining arguments they terminate with an ordinary
value - either a finalized record or None - and never raise (no `.error`
escapes, i.e. every internal indexing, max and division guard holds). -/
theorem row_extractors_total_no_exception :
    (∀ cells mid dl meta pos, ∃ v, parse_batting_row cells mid dl meta pos = .ok v) ∧
    (∀ cells mid, ∃ w, parse_bowling_row cells mid = .ok w) :=
  ⟨fun cells mid dl meta pos => parse_batting_row_ok cells mid dl meta pos,
   fun cells mid => parse_bowling_row_ok cells mid⟩

end StatCastle
